/-
  Verification of the coordinate arithmetic core of the `omics` crates
  (`omics-coordinate`), as a shallow embedding in Lean 4.

  The crate contains two revisions of the coordinate engine:

  * a legacy revision, generic over the `Zero`/`One` systems, whose positions
    carry a `Value` that is either the virtual `LowerBound` or a `usize`
    (`src/omics-coordinate/src/lib.rs`, `position.rs`, `position/zero/…`,
    `position/one/…`, `interval/zero.rs`); it is embedded below in the
    `Omics.ZeroOne` namespace;
  * a modern revision, generic over the `Interbase`/`Base` systems, whose
    positions are plain unsigned numbers
    (`src/omics-coordinate/src/coordinate.rs`, `interval.rs`,
    `interval/interbase.rs`, `interval/base.rs`); it is embedded below in
    the `Omics.InterbaseBase` namespace.

  Machine integers (`usize` for the legacy revision, the position `Number`
  for the modern one) are modelled as `Nat` together with explicit checked
  operations bounded by the 64-bit maximum (the crate is built for 64-bit
  targets; the modern revision selects the number width with a build-time
  feature, which does not affect any statement proved here).

  Rust `panic!`/`unreachable!`/`unwrap` sites are modelled by an `Option`
  layer (`none` = panic) or by a dedicated `panic` constructor, so that
  "this unwrap never fires" is a provable statement rather than an
  assumption.
-/

import Mathlib

namespace Omics

/-- The maximum value of the 64-bit unsigned integers used for positions. -/
def intMax : Nat := 2 ^ 64 - 1

/-- Rust `usize::checked_add` / `u64::checked_add`: `none` on overflow. -/
def checkedAddNat (a b : Nat) : Option Nat :=
  if a + b ≤ intMax then some (a + b) else none

/-- Rust `usize::checked_sub` / `u64::checked_sub`: `none` on underflow. -/
def checkedSubNat (a b : Nat) : Option Nat :=
  if b ≤ a then some (a - b) else none

/-- A contig identifier (`Contig` wraps a `String` in both revisions; it is
used by the coordinate core purely as an equality key). -/
abbrev Contig := String

/-- The strand of a double-stranded molecule (`src/omics-coordinate/src/strand.rs`). -/
inductive Strand where
  /-- The positive strand (`+`). -/
  | positive
  /-- The negative strand (`-`). -/
  | negative
deriving DecidableEq, Repr

/-- Strand complementation (`Strand::complement`). -/
def Strand.complement : Strand → Strand
  | .positive => .negative
  | .negative => .positive

/-- Parsing a strand from text (`impl FromStr for Strand`): `"+"` and `"-"`
are the only accepted encodings. -/
def Strand.fromStr (s : String) : Option Strand :=
  if s = "+" then some .positive
  else if s = "-" then some .negative
  else none

/-- Parsing a contig from text (`Contig::try_new`): any non-empty string. -/
def Contig.fromStr (s : String) : Option Contig :=
  if s = "" then none else some s

end Omics

namespace Omics.ZeroOne

/-- The value of a legacy position
(`src/omics-coordinate/src/position/value.rs`): either the virtual lower
bound or an unsigned integer.  The derived order on the Rust enum places
`LowerBound` below every `Usize` value. -/
inductive Value where
  /-- The lower bound (serialized as `[`). -/
  | lowerBound
  /-- An unsigned integer value. -/
  | usize (n : Nat)
deriving DecidableEq, Repr

/-- The strict order on `Value` derived by Rust (`LowerBound < Usize 0 < …`). -/
def Value.ltb : Value → Value → Bool
  | .lowerBound, .lowerBound => false
  | .lowerBound, .usize _ => true
  | .usize _, .lowerBound => false
  | .usize a, .usize b => a < b

/-- The legacy coordinate system tag (`Zero` or `One`), carried at the value
level here since all behavioural differences live in the checked position
arithmetic. -/
inductive Sys where
  /-- The 0-based, half-open system. -/
  | zero
  /-- The 1-based, fully-closed system. -/
  | one
deriving DecidableEq, Repr

/-- Checked addition for 0-based positions
(`src/omics-coordinate/src/position/zero/addition.rs`, `checked_add`). -/
def Value.checkedAddZero : Value → Nat → Option Value
  | .usize l, rhs => (Omics.checkedAddNat l rhs).map .usize
  | .lowerBound, 0 => some .lowerBound
  | .lowerBound, rhs => (Omics.checkedSubNat rhs 1).map .usize

/-- Checked subtraction for 0-based positions
(`src/omics-coordinate/src/position/zero/subtraction.rs`, `checked_sub`):
a `Usize` below the integer maximum is shifted up by one before the
subtraction so that landing exactly on zero yields the lower bound. -/
def Value.checkedSubZero : Value → Nat → Option Value
  | .usize a, b =>
    if a = Omics.intMax then (Omics.checkedSubNat a b).map .usize
    else
      match Omics.checkedSubNat (a + 1) b with
      | some 0 => some .lowerBound
      | some (m + 1) => some (.usize m)
      | none => none
  | .lowerBound, 0 => some .lowerBound
  | .lowerBound, _ => none

/-- The validity rule of the 1-based system
(`src/omics-coordinate/src/position/one.rs`, `try_new`): the lower bound and
zero are both invalid. -/
def Value.validOne : Value → Bool
  | .lowerBound => false
  | .usize 0 => false
  | .usize _ => true

/-- Checked addition for 1-based positions
(`src/omics-coordinate/src/position/one/addition.rs`): plain checked
addition (with the lower bound notionally worth 0), filtered through the
1-based validity rule, an invalid result becoming `none`. -/
def Value.checkedAddOne : Value → Nat → Option Value
  | .usize l, rhs =>
    match (Omics.checkedAddNat l rhs).map Value.usize with
    | some v => if v.validOne then some v else none
    | none => none
  | .lowerBound, rhs =>
    if (Value.usize rhs).validOne then some (.usize rhs) else none

/-- Checked subtraction for 1-based positions
(`src/omics-coordinate/src/position/one/subtraction.rs`): plain checked
subtraction, filtered through the 1-based validity rule; subtracting
anything from the lower bound overflows. -/
def Value.checkedSubOne : Value → Nat → Option Value
  | .usize l, rhs =>
    match (Omics.checkedSubNat l rhs).map Value.usize with
    | some v => if v.validOne then some v else none
    | none => none
  | .lowerBound, _ => none

/-- System-dispatched checked addition (`Position::checked_add`). -/
def Sys.checkedAdd : Sys → Value → Nat → Option Value
  | .zero, v, m => v.checkedAddZero m
  | .one, v, m => v.checkedAddOne m

/-- System-dispatched checked subtraction (`Position::checked_sub`). -/
def Sys.checkedSub : Sys → Value → Nat → Option Value
  | .zero, v, m => v.checkedSubZero m
  | .one, v, m => v.checkedSubOne m

/-- The magnitude of the distance between two legacy positions
(`src/omics-coordinate/src/position.rs`, `Position::distance_unchecked`). -/
def Value.distanceUnchecked : Value → Value → Option Nat
  | .usize a, .usize b =>
    if a > b then Omics.checkedSubNat a b else Omics.checkedSubNat b a
  | .usize a, .lowerBound => Omics.checkedAddNat a 1
  | .lowerBound, .usize b => Omics.checkedAddNat b 1
  | .lowerBound, .lowerBound => some 0

/-- The legacy coordinate error (`src/omics-coordinate/src/lib.rs`, `Error`).
Only the variant reachable from already-typed inputs is modelled; the
remaining variants (`ArithmeticError`, `ParseError`, `Position`) arise only
from the string-conversion paths, which are outside the embedded calls. -/
inductive Error where
  /-- Attempted to create a lower bound coordinate that was not on the
  negative strand (`Error::LowerBoundOnNonNegativeStrand`). -/
  | lowerBoundOnNonNegativeStrand
deriving DecidableEq, Repr

/-- A legacy coordinate (`src/omics-coordinate/src/lib.rs`, `Coordinate<S>`):
a contig, a strand and a position.  The system tag is passed to the
operations that need it rather than stored, since it has no runtime
content. -/
structure Coordinate where
  /-- The contig. -/
  contig : Omics.Contig
  /-- The strand. -/
  strand : Omics.Strand
  /-- The position's value. -/
  position : Value
deriving DecidableEq, Repr

/-- Construction of a legacy coordinate
(`src/omics-coordinate/src/lib.rs`, `Coordinate::try_new`): a lower bound
position on a non-negative strand is rejected. -/
def Coordinate.tryNew (contig : Omics.Contig) (strand : Omics.Strand)
    (position : Value) : Except Error Coordinate :=
  if position = Value.lowerBound ∧ strand ≠ Omics.Strand.negative then
    .error .lowerBoundOnNonNegativeStrand
  else
    .ok ⟨contig, strand, position⟩

/-- The coordinate invariant established by `Coordinate::try_new`: a lower
bound position only ever sits on the negative strand. -/
def Coordinate.Valid (c : Coordinate) : Prop :=
  c.position = Value.lowerBound → c.strand = Omics.Strand.negative

instance (c : Coordinate) : Decidable c.Valid := by
  unfold Coordinate.Valid; infer_instance

/-- The outcome of a legacy coordinate move: the `ok`/`err` constructors
mirror `Result<Option<Coordinate>, Error>`, while `panic` models the
`unreachable!()` arm of `Coordinate::move_forward`. -/
inductive MoveResult where
  /-- The move returned `Ok`: either a coordinate or `None` when the move
  fell off the representable range. -/
  | ok (result : Option Coordinate)
  /-- The move returned a hard error. -/
  | err (e : Error)
  /-- The move panicked (the `unreachable!()` arm). -/
  | panic
deriving DecidableEq, Repr

/-- Moving a legacy coordinate forward
(`src/omics-coordinate/src/lib.rs`, `Coordinate::move_forward`): magnitude
zero is the identity; otherwise the positive strand adds and the negative
strand subtracts, the result is rebuilt through `Coordinate::try_new`, and
a `LowerBoundOnNonNegativeStrand` error is declared unreachable. -/
def Coordinate.moveForward (s : Sys) (c : Coordinate) (magnitude : Nat) :
    MoveResult :=
  if magnitude = 0 then .ok (some c)
  else
    let position :=
      match c.strand with
      | .positive => s.checkedAdd c.position magnitude
      | .negative => s.checkedSub c.position magnitude
    let result : Except Error (Option Coordinate) :=
      match position with
      | none => .ok none
      | some p => (Coordinate.tryNew c.contig c.strand p).map some
    match result with
    | .error .lowerBoundOnNonNegativeStrand => .panic
    | .ok r => .ok r

/-- Moving a legacy coordinate backward
(`src/omics-coordinate/src/lib.rs`, `Coordinate::move_backward`): as
`move_forward` with the strand roles swapped, except that a
`LowerBoundOnNonNegativeStrand` error is mapped to `Ok(None)`. -/
def Coordinate.moveBackward (s : Sys) (c : Coordinate) (magnitude : Nat) :
    MoveResult :=
  if magnitude = 0 then .ok (some c)
  else
    let position :=
      match c.strand with
      | .positive => s.checkedSub c.position magnitude
      | .negative => s.checkedAdd c.position magnitude
    let result : Except Error (Option Coordinate) :=
      match position with
      | none => .ok none
      | some p => (Coordinate.tryNew c.contig c.strand p).map some
    match result with
    | .error .lowerBoundOnNonNegativeStrand => .ok none
    | .ok r => .ok r

/-- Swapping the strand of a legacy coordinate
(`src/omics-coordinate/src/lib.rs`, `Coordinate::swap_strand`): rebuild the
coordinate through `try_new` with the complemented strand. -/
def Coordinate.swapStrand (c : Coordinate) : Except Error Coordinate :=
  Coordinate.tryNew c.contig c.strand.complement c.position

/-- A legacy interval error (`src/omics-coordinate/src/interval.rs` error
variants used by the legacy interval operations). -/
inductive IntervalError where
  /-- The two coordinates sit on different contigs. -/
  | mismatchedContigs (start stop : Omics.Contig)
  /-- The two coordinates sit on different strands. -/
  | mismatchedStrands (start stop : Omics.Strand)
  /-- The start comes after the end relative to the strand direction. -/
  | negativelySized
  /-- A 0-based interval with equal start and end
  (`Error::ZeroSizedInterval`). -/
  | zeroSizedInterval
  /-- A wrapped coordinate error (`Error::Coordinate`). -/
  | coordinate (e : Error)
deriving DecidableEq, Repr

/-- A legacy interval: a start and an end coordinate (the `end` field of the
source is a reserved word in Lean and is called `stop` here). -/
structure Interval where
  /-- The start coordinate. -/
  start : Coordinate
  /-- The end coordinate. -/
  stop : Coordinate
deriving DecidableEq, Repr

/-- The system-generic interval construction checks
(`src/omics-coordinate/src/interval.rs`, `Interval::try_new`, translated to
the legacy coordinate representation): equal contigs, equal strands, and
start-before-end relative to the strand, positions compared in the `Value`
order (`LowerBound` least). -/
def Interval.tryNewGeneric (start stop : Coordinate) :
    Except IntervalError Interval :=
  if start.contig ≠ stop.contig then
    .error (.mismatchedContigs start.contig stop.contig)
  else if start.strand ≠ stop.strand then
    .error (.mismatchedStrands start.strand stop.strand)
  else
    match start.strand with
    | .positive =>
      if Value.ltb stop.position start.position then .error .negativelySized
      else .ok ⟨start, stop⟩
    | .negative =>
      if Value.ltb start.position stop.position then .error .negativelySized
      else .ok ⟨start, stop⟩

/-- Construction of a 0-based, half-open interval
(`src/omics-coordinate/src/interval/zero.rs`, `try_new`): the generic
checks, plus the rejection of equal start and end coordinates. -/
def Interval.tryNewZero (start stop : Coordinate) :
    Except IntervalError Interval :=
  match Interval.tryNewGeneric start stop with
  | .error e => .error e
  | .ok result =>
    if result.start = result.stop then .error .zeroSizedInterval
    else .ok result

/-- The continuation of `complement` once the new start coordinate is known
(`src/omics-coordinate/src/interval/zero.rs`, lines 220-231): the new end is
the old start, strand-swapped and moved forward by one.  The outer `Option`
layer models panics (`none` = a panic inside a called operation). -/
def Interval.complementZeroCont (currentStart newStart : Coordinate) :
    Option (Except IntervalError (Option Interval)) :=
  match currentStart.swapStrand with
  | .error e => some (.error (.coordinate e))
  | .ok swapped =>
    match Coordinate.moveForward Sys.zero swapped 1 with
    | .panic => none
    | .err e => some (.error (.coordinate e))
    | .ok none => some (.ok none)
    | .ok (some newStop) =>
      some ((Interval.tryNewZero newStart newStop).map some)

/-- The complement of a 0-based, half-open interval
(`src/omics-coordinate/src/interval/zero.rs`, `complement`): the new start
is the old end strand-swapped and moved forward by one, except that an old
end at the lower bound becomes the positive-strand position zero directly;
the new end is obtained from the old start symmetrically; an overflowing
move yields `Ok(None)`.  The outer `Option` layer models panics (`none` = a
panic, covering the `unwrap` on the hand-crafted coordinate and the
`unreachable!()` inside `move_forward`). -/
def Interval.complementZero (i : Interval) :
    Option (Except IntervalError (Option Interval)) :=
  match i.stop.position with
  | .lowerBound =>
    match Coordinate.tryNew i.stop.contig Omics.Strand.positive (Value.usize 0) with
    | .error _ => none
    | .ok newStart => Interval.complementZeroCont i.start newStart
  | .usize _ =>
    match i.stop.swapStrand with
    | .error e => some (.error (.coordinate e))
    | .ok swapped =>
      match Coordinate.moveForward Sys.zero swapped 1 with
      | .panic => none
      | .err e => some (.error (.coordinate e))
      | .ok none => some (.ok none)
      | .ok (some newStart) => Interval.complementZeroCont i.start newStart

end Omics.ZeroOne

namespace Omics.InterbaseBase

/-- A modern coordinate (`src/omics-coordinate/src/coordinate.rs`,
`Coordinate<S>`): a contig, a strand and a plain unsigned position number.
The `Interbase`/`Base` system tag has no runtime content and the operations
embedded here are system-independent except where noted. -/
structure Coordinate where
  /-- The contig. -/
  contig : Omics.Contig
  /-- The strand. -/
  strand : Omics.Strand
  /-- The position number. -/
  position : Nat
deriving DecidableEq, Repr

/-- A modern interval error (`src/omics-coordinate/src/interval.rs`): the
clamp-time mismatch variants (`ClampError`) are distinct from the
construction-time mismatch variants (`NonsensicalError`). -/
inductive NError where
  /-- Clamp-time mismatched contigs (`ClampError::MismatchedContigs`). -/
  | clampMismatchedContigs (original operand : Omics.Contig)
  /-- Clamp-time mismatched strands (`ClampError::MismatchedStrand`). -/
  | clampMismatchedStrand (original operand : Omics.Strand)
  /-- Construction-time mismatched contigs
  (`NonsensicalError::MismatchedContigs`). -/
  | mismatchedContigs (start stop : Omics.Contig)
  /-- Construction-time mismatched strands
  (`NonsensicalError::MismatchedStrands`). -/
  | mismatchedStrands (start stop : Omics.Strand)
  /-- A negatively sized interval (`NonsensicalError::NegativelySized`). -/
  | negativelySized (start stop : Nat) (strand : Omics.Strand)
  /-- A malformed textual shape (`ParseError::Format`). -/
  | parseFormat (value : String)
  /-- A strand parse error (`Error::Strand`). -/
  | strandError
  /-- A position parse error (`Error::Position`). -/
  | positionError
deriving DecidableEq, Repr

/-- A modern interval: a start and an end coordinate (the `end` field of the
source is a reserved word in Lean and is called `stop` here). -/
structure Interval where
  /-- The start coordinate. -/
  start : Coordinate
  /-- The end coordinate. -/
  stop : Coordinate
deriving DecidableEq, Repr

/-- Construction of a modern interval
(`src/omics-coordinate/src/interval.rs`, `Interval::try_new`): equal
contigs, equal strands, and start-before-end relative to the strand.  There
is no rejection of equal start and end in this revision. -/
def Interval.tryNew (start stop : Coordinate) : Except NError Interval :=
  if start.contig ≠ stop.contig then
    .error (.mismatchedContigs start.contig stop.contig)
  else if start.strand ≠ stop.strand then
    .error (.mismatchedStrands start.strand stop.strand)
  else
    match start.strand with
    | .positive =>
      if start.position > stop.position then
        .error (.negativelySized start.position stop.position start.strand)
      else .ok ⟨start, stop⟩
    | .negative =>
      if stop.position > start.position then
        .error (.negativelySized start.position stop.position start.strand)
      else .ok ⟨start, stop⟩

/-- Clamping an interval by another
(`src/omics-coordinate/src/interval.rs`, `Interval::clamp`): mismatched
contigs or strands yield the dedicated clamp errors; otherwise the new start
is the `max` (positive strand) or `min` (negative strand) of the two starts,
the new end the symmetric `min`/`max` of the two ends, and the result is
rebuilt through `Interval::try_new` followed by `unwrap`.  The outer
`Option` layer models the panic of that `unwrap` (`none` = panic). -/
def Interval.clamp (self other : Interval) :
    Option (Except NError Interval) :=
  if self.start.contig ≠ other.start.contig then
    some (.error (.clampMismatchedContigs self.start.contig other.start.contig))
  else if self.start.strand ≠ other.start.strand then
    some (.error (.clampMismatchedStrand self.start.strand other.start.strand))
  else
    let bounds :=
      match self.start.strand with
      | .positive =>
        (max self.start.position other.start.position,
          min self.stop.position other.stop.position)
      | .negative =>
        (min self.start.position other.start.position,
          max self.stop.position other.stop.position)
    let newStart : Coordinate := ⟨self.start.contig, self.start.strand, bounds.1⟩
    let newStop : Coordinate := ⟨self.stop.contig, self.stop.strand, bounds.2⟩
    match Interval.tryNew newStart newStop with
    | .ok i => some (.ok i)
    | .error _ => none

/-- Modelled from the spec: the magnitude of the distance between two modern
position numbers.  The modern revision's core `Position` module (holding
`Position::distance_unchecked` for plain-number positions) is not among the
sources; per the specification, the `Number`-`Number` distance "is the
absolute difference", which its callers
(`src/omics-coordinate/src/interval/interbase.rs` and `interval/base.rs`)
and the tests in `src/omics-coordinate/src/position/interbase.rs` rely
upon. -/
def distanceUnchecked (a b : Nat) : Nat :=
  if a ≤ b then b - a else a - b

/-- The entity count of an interbase (half-open) interval
(`src/omics-coordinate/src/interval/interbase.rs`, `count_entities`): the
plain distance between the two positions. -/
def Interval.countEntitiesInterbase (i : Interval) : Nat :=
  distanceUnchecked i.start.position i.stop.position

/-- The entity count of a base (fully-closed) interval
(`src/omics-coordinate/src/interval/base.rs`, `count_entities`): the
distance between the two positions, plus one. -/
def Interval.countEntitiesBase (i : Interval) : Nat :=
  distanceUnchecked i.start.position i.stop.position + 1

/-- Splitting a character list at every occurrence of a separator,
mirroring Rust `str::split` (and `String::splitOn`, reimplemented by
structural recursion so that concrete parses reduce definitionally). -/
def splitOnChar (sep : Char) : List Char → List (List Char)
  | [] => [[]]
  | c :: rest =>
    if c = sep then [] :: splitOnChar sep rest
    else
      match splitOnChar sep rest with
      | [] => [[c]]
      | group :: groups => (c :: group) :: groups

/-- The numeric value of a decimal digit character, `none` otherwise. -/
def charDigit (c : Char) : Option Nat :=
  if '0' ≤ c ∧ c ≤ '9' then some (c.toNat - 48) else none

/-- The accumulator loop of the decimal parse. -/
def digitsToNatAux : List Char → Nat → Option Nat
  | [], acc => some acc
  | c :: rest, acc =>
    match charDigit c with
    | some d => digitsToNatAux rest (acc * 10 + d)
    | none => none

/-- Parsing a non-empty run of decimal digits into a number. -/
def parseNatDigits : List Char → Option Nat
  | [] => none
  | l => digitsToNatAux l 0

/-- Parsing a position number (`u64`/`u32` `FromStr` as used by
`src/omics-coordinate/src/position/interbase.rs`): an optional leading `+`,
then decimal digits, rejecting values beyond the integer maximum. -/
def parseNumber (s : List Char) : Option Nat :=
  let t := match s with
    | c :: rest => if c = '+' then rest else s
    | [] => s
  match parseNatDigits t with
  | some n => if n ≤ Omics.intMax then some n else none
  | none => none

/-- Parsing a modern interval from text
(`src/omics-coordinate/src/interval.rs`, `impl FromStr for Interval`): the
shape is `<contig>:<strand>:<start>-<end>`; exactly three `:`-separated
parts, and the position part must split on `-` into exactly two positions;
any other shape is a format error. -/
def Interval.fromStr (s : String) : Except NError Interval :=
  let parts := (splitOnChar ':' s.data).map fun cs => String.mk cs
  if parts.length ≠ 3 then .error (.parseFormat s)
  else
    match Omics.Contig.fromStr (parts.getD 0 "") with
    | none => .error (.parseFormat s)
    | some contig =>
      match Omics.Strand.fromStr (parts.getD 1 "") with
      | none => .error .strandError
      | some strand =>
        let positions := splitOnChar '-' (parts.getD 2 "").data
        if positions.length ≠ 2 then .error (.parseFormat s)
        else
          match parseNumber (positions.getD 0 []) with
          | none => .error .positionError
          | some start =>
            match parseNumber (positions.getD 1 []) with
            | none => .error .positionError
            | some stop =>
              Interval.tryNew ⟨contig, strand, start⟩ ⟨contig, strand, stop⟩

end Omics.InterbaseBase

namespace Omics.ZeroOne

/-! ### Helper lemmas for the legacy revision -/

theorem Value.ltb_irrefl (v : Value) : Value.ltb v v = false := by
  cases v <;> simp [Value.ltb]

theorem Interval.tryNewGeneric_ok_iff (s e : Coordinate) (i : Interval) :
    Interval.tryNewGeneric s e = .ok i ↔
      s.contig = e.contig ∧ s.strand = e.strand ∧
        (match s.strand with
          | .positive => Value.ltb e.position s.position = false
          | .negative => Value.ltb s.position e.position = false) ∧
        i = ⟨s, e⟩ := by
  obtain ⟨sc, ss, sp⟩ := s
  obtain ⟨ec, es, ep⟩ := e
  unfold Interval.tryNewGeneric
  by_cases hc : sc = ec
  · by_cases hstr : ss = es
    · subst hc; subst hstr
      rw [if_neg (by simp), if_neg (by simp)]
      cases ss
      · simp only []
        by_cases hlt : Value.ltb ep sp = true
        · rw [if_pos hlt]
          simp [hlt]
        · rw [if_neg hlt]
          simp only [Bool.not_eq_true] at hlt
          simp [hlt, eq_comm]
      · simp only []
        by_cases hlt : Value.ltb sp ep = true
        · rw [if_pos hlt]
          simp [hlt]
        · rw [if_neg hlt]
          simp only [Bool.not_eq_true] at hlt
          simp [hlt, eq_comm]
    · rw [if_neg (by simpa using hc), if_pos (by simpa using hstr)]
      simp [hstr]
  · rw [if_pos (by simpa using hc)]
    simp [hc]

theorem Interval.tryNewZero_ok_iff (s e : Coordinate) (i : Interval) :
    Interval.tryNewZero s e = .ok i ↔
      s.contig = e.contig ∧ s.strand = e.strand ∧
        (match s.strand with
          | .positive => Value.ltb e.position s.position = false
          | .negative => Value.ltb s.position e.position = false) ∧
        s ≠ e ∧ i = ⟨s, e⟩ := by
  unfold Interval.tryNewZero
  constructor
  · intro h
    cases hg : Interval.tryNewGeneric s e with
    | error _ => rw [hg] at h; exact absurd h (by simp)
    | ok j =>
      rw [hg] at h
      obtain ⟨hc, hstr, hord, rfl⟩ := (Interval.tryNewGeneric_ok_iff s e j).mp hg
      simp only [] at h
      by_cases hne : s = e
      · rw [if_pos hne] at h; exact absurd h (by simp)
      · rw [if_neg hne] at h
        cases h
        exact ⟨hc, hstr, hord, hne, rfl⟩
  · rintro ⟨hc, hstr, hord, hne, rfl⟩
    rw [(Interval.tryNewGeneric_ok_iff s e ⟨s, e⟩).mpr ⟨hc, hstr, hord, rfl⟩]
    simp only []
    rw [if_neg hne]

/-! ### Claim theorems for the legacy revision -/

/-- C1: constructing a 0-based (half-open) interval whose start position
equals its end position fails: for every coordinate `c`, the zero-based
`Interval::try_new(c, c)` returns the zero-sized-interval error and never a
valid zero-length interval. -/
theorem zero_interval_rejects_empty (c : Coordinate) :
    Interval.tryNewZero c c = .error IntervalError.zeroSizedInterval := by
  unfold Interval.tryNewZero
  have hg : Interval.tryNewGeneric c c = .ok ⟨c, c⟩ :=
    (Interval.tryNewGeneric_ok_iff c c ⟨c, c⟩).mpr
      ⟨rfl, rfl, by cases c.strand <;> simp [Value.ltb_irrefl], rfl⟩
  rw [hg]
  simp

/-- C3: the lower bound behaves as the notional value `-1` under the
zero-based checked arithmetic: adding zero to the lower bound is the
identity; adding `k ≥ 1` yields `Number (k - 1)`; subtracting exactly one
from `Number 0` yields the lower bound while subtracting more overflows to
`none`; and subtracting any non-zero magnitude from the lower bound
overflows to `none`. -/
theorem zero_checked_arith_lower_bound (k : Nat) (hk : k ≤ Omics.intMax) :
    Value.checkedAddZero .lowerBound 0 = some .lowerBound ∧
    (1 ≤ k → Value.checkedAddZero .lowerBound k = some (.usize (k - 1))) ∧
    Value.checkedSubZero (.usize 0) 1 = some .lowerBound ∧
    (1 < k → Value.checkedSubZero (.usize 0) k = none) ∧
    Value.checkedSubZero .lowerBound 0 = some .lowerBound ∧
    (1 ≤ k → Value.checkedSubZero .lowerBound k = none) := by
  refine ⟨rfl, ?_, ?_, ?_, rfl, ?_⟩
  · intro h1
    obtain ⟨m, rfl⟩ := Nat.exists_eq_add_of_le h1
    simp [Value.checkedAddZero, Omics.checkedSubNat]
  · have h0 : (0 : Nat) ≠ Omics.intMax := by decide
    simp [Value.checkedSubZero, h0, Omics.checkedSubNat]
  · intro h1
    have h0 : (0 : Nat) ≠ Omics.intMax := by decide
    simp only [Value.checkedSubZero, h0, if_false]
    rw [show Omics.checkedSubNat (0 + 1) k = none by
      simp [Omics.checkedSubNat]; omega]
  · intro h1
    obtain ⟨m, rfl⟩ := Nat.exists_eq_add_of_le h1
    simp [Value.checkedSubZero]

/-- C3 witness: the specification evaluated at the concrete magnitude 5. -/
theorem zero_checked_arith_lower_bound_witness :
    Value.checkedAddZero .lowerBound 5 = some (.usize 4) ∧
    Value.checkedSubZero (.usize 0) 5 = none ∧
    Value.checkedSubZero .lowerBound 5 = none :=
  ⟨(zero_checked_arith_lower_bound 5 (by decide)).2.1 (by decide),
    (zero_checked_arith_lower_bound 5 (by decide)).2.2.2.1 (by decide),
    (zero_checked_arith_lower_bound 5 (by decide)).2.2.2.2.2 (by decide)⟩

/-- C4: the unchecked distance between two legacy positions is the absolute
difference for two numbers, is `n + 1` for `Number n` against the lower
bound (overflowing to `none` exactly at the integer maximum), is zero
between two lower bounds, and is symmetric in its two arguments. -/
theorem distance_unchecked_spec :
    (∀ a b : Nat,
      Value.distanceUnchecked (.usize a) (.usize b) = some (Nat.dist a b)) ∧
    (∀ n : Nat, n < Omics.intMax →
      Value.distanceUnchecked (.usize n) .lowerBound = some (n + 1)) ∧
    Value.distanceUnchecked (.usize Omics.intMax) .lowerBound = none ∧
    Value.distanceUnchecked .lowerBound .lowerBound = some 0 ∧
    (∀ a b : Value, Value.distanceUnchecked a b = Value.distanceUnchecked b a) := by
  refine ⟨?_, ?_, ?_, rfl, ?_⟩
  · intro a b
    simp only [Value.distanceUnchecked]
    by_cases h : a > b
    · rw [if_pos h]
      unfold Omics.checkedSubNat
      rw [if_pos (by omega), Nat.dist_eq_sub_of_le_right (by omega)]
    · rw [if_neg h]
      unfold Omics.checkedSubNat
      rw [if_pos (by omega), Nat.dist_eq_sub_of_le (by omega)]
  · intro n hn
    simp only [Value.distanceUnchecked, Omics.checkedAddNat]
    rw [if_pos (by omega)]
  · simp only [Value.distanceUnchecked, Omics.checkedAddNat]
    rw [if_neg (by omega)]
  · intro a b
    cases a with
    | lowerBound => cases b <;> rfl
    | usize a =>
      cases b with
      | lowerBound => rfl
      | usize b =>
        simp only [Value.distanceUnchecked]
        by_cases h : a > b
        · rw [if_pos h, if_neg (by omega)]
        · by_cases h2 : b > a
          · rw [if_neg h, if_pos h2]
          · have hab : a = b := by omega
            subst hab
            rfl

/-- C4 witness: the distance specification evaluated at concrete positions. -/
theorem distance_unchecked_spec_witness :
    Value.distanceUnchecked (.usize 10) (.usize 3) = some 7 ∧
    Value.distanceUnchecked (.usize 10) .lowerBound = some 11 :=
  ⟨(distance_unchecked_spec.1 10 3).trans (by norm_num [Nat.dist]),
    distance_unchecked_spec.2.1 10 (by decide)⟩

theorem Coordinate.tryNew_usize (contig : Omics.Contig) (strand : Omics.Strand)
    (n : Nat) :
    Coordinate.tryNew contig strand (.usize n) = .ok ⟨contig, strand, .usize n⟩ := by
  unfold Coordinate.tryNew
  rw [if_neg]
  rintro ⟨h, -⟩
  exact absurd h (by simp)

theorem Coordinate.tryNew_negative (contig : Omics.Contig) (p : Value) :
    Coordinate.tryNew contig .negative p = .ok ⟨contig, .negative, p⟩ := by
  unfold Coordinate.tryNew
  rw [if_neg]
  rintro ⟨-, h⟩
  exact h rfl

theorem Sys.checkedAdd_ne_lowerBound (s : Sys) (v : Value) (m : Nat)
    (hm : m ≠ 0) : s.checkedAdd v m ≠ some Value.lowerBound := by
  cases s with
  | zero =>
    cases v with
    | lowerBound =>
      cases m with
      | zero => exact absurd rfl hm
      | succ k =>
        show ((Omics.checkedSubNat (k + 1) 1).map Value.usize) ≠ some Value.lowerBound
        unfold Omics.checkedSubNat
        rw [if_pos (by omega)]
        simp
    | usize l =>
      show ((Omics.checkedAddNat l m).map Value.usize) ≠ some Value.lowerBound
      cases Omics.checkedAddNat l m <;> simp
  | one =>
    cases v with
    | lowerBound =>
      show (if (Value.usize m).validOne then some (Value.usize m) else none) ≠
        some Value.lowerBound
      split_ifs <;> simp
    | usize l =>
      show (match (Omics.checkedAddNat l m).map Value.usize with
        | some v => if v.validOne then some v else none
        | none => none) ≠ some Value.lowerBound
      cases Omics.checkedAddNat l m with
      | none => simp
      | some x =>
        show (if (Value.usize x).validOne then some (Value.usize x) else none) ≠
          some Value.lowerBound
        split_ifs <;> simp

theorem Coordinate.moveForward_eq_pos (s : Sys) (c : Coordinate) (m : Nat)
    (hm : m ≠ 0) (hstr : c.strand = Omics.Strand.positive) :
    Coordinate.moveForward s c m =
      .ok ((s.checkedAdd c.position m).map fun p => ⟨c.contig, c.strand, p⟩) := by
  unfold Coordinate.moveForward
  rw [if_neg hm, hstr]
  simp only []
  cases h : s.checkedAdd c.position m with
  | none => simp
  | some p =>
    cases p with
    | lowerBound => exact absurd h (Sys.checkedAdd_ne_lowerBound s _ m hm)
    | usize n => simp [Coordinate.tryNew_usize, Except.map]

theorem Coordinate.moveForward_eq_neg (s : Sys) (c : Coordinate) (m : Nat)
    (hm : m ≠ 0) (hstr : c.strand = Omics.Strand.negative) :
    Coordinate.moveForward s c m =
      .ok ((s.checkedSub c.position m).map fun p => ⟨c.contig, c.strand, p⟩) := by
  unfold Coordinate.moveForward
  rw [if_neg hm, hstr]
  simp only []
  cases h : s.checkedSub c.position m with
  | none => simp
  | some p => simp [Coordinate.tryNew_negative, Except.map]

theorem Coordinate.moveBackward_eq_pos (s : Sys) (c : Coordinate) (m : Nat)
    (hm : m ≠ 0) (hstr : c.strand = Omics.Strand.positive) :
    Coordinate.moveBackward s c m =
      .ok ((s.checkedSub c.position m).bind fun p =>
        match p with
        | .lowerBound => none
        | p => some ⟨c.contig, c.strand, p⟩) := by
  unfold Coordinate.moveBackward
  rw [if_neg hm, hstr]
  simp only []
  cases h : s.checkedSub c.position m with
  | none => simp
  | some p =>
    cases p with
    | lowerBound =>
      simp only [Option.some_bind]
      unfold Coordinate.tryNew
      rw [if_pos ⟨rfl, by simp⟩]
      rfl
    | usize n => simp [Coordinate.tryNew_usize, Except.map]

theorem Coordinate.moveBackward_eq_neg (s : Sys) (c : Coordinate) (m : Nat)
    (hm : m ≠ 0) (hstr : c.strand = Omics.Strand.negative) :
    Coordinate.moveBackward s c m =
      .ok ((s.checkedAdd c.position m).map fun p => ⟨c.contig, c.strand, p⟩) := by
  unfold Coordinate.moveBackward
  rw [if_neg hm, hstr]
  simp only []
  cases h : s.checkedAdd c.position m with
  | none => simp
  | some p => simp [Coordinate.tryNew_negative, Except.map]

theorem Coordinate.tryNew_ok_valid (contig : Omics.Contig)
    (strand : Omics.Strand) (p : Value) (c' : Coordinate)
    (h : Coordinate.tryNew contig strand p = .ok c') : c'.Valid := by
  unfold Coordinate.tryNew at h
  by_cases hcond : p = Value.lowerBound ∧ strand ≠ Omics.Strand.negative
  · rw [if_pos hcond] at h
    exact absurd h (by simp)
  · rw [if_neg hcond] at h
    cases h
    intro hp
    push_neg at hcond
    exact hcond hp

/-- C5: legacy coordinate movement is strand-relative with magnitude zero as
the identity: moving forward adds on the positive strand and subtracts on
the negative strand (and conversely for moving backward); `move_forward`
never reaches its `unreachable!()` arm (the lower-bound-on-non-negative
strand error) for any input, while `move_backward` maps that condition to
`Ok(None)` rather than an error, so neither ever returns a hard error. -/
theorem move_forward_backward_spec (s : Sys) (c : Coordinate) (m : Nat) :
    (Coordinate.moveForward s c 0 = .ok (some c) ∧
      Coordinate.moveBackward s c 0 = .ok (some c)) ∧
    (m ≠ 0 → c.strand = Omics.Strand.positive →
      Coordinate.moveForward s c m =
        .ok ((s.checkedAdd c.position m).map fun p => ⟨c.contig, c.strand, p⟩)) ∧
    (m ≠ 0 → c.strand = Omics.Strand.negative →
      Coordinate.moveForward s c m =
        .ok ((s.checkedSub c.position m).map fun p => ⟨c.contig, c.strand, p⟩)) ∧
    (m ≠ 0 → c.strand = Omics.Strand.positive →
      Coordinate.moveBackward s c m =
        .ok ((s.checkedSub c.position m).bind fun p =>
          match p with
          | .lowerBound => none
          | p => some ⟨c.contig, c.strand, p⟩)) ∧
    (m ≠ 0 → c.strand = Omics.Strand.negative →
      Coordinate.moveBackward s c m =
        .ok ((s.checkedAdd c.position m).map fun p => ⟨c.contig, c.strand, p⟩)) ∧
    Coordinate.moveForward s c m ≠ .panic ∧
    (∀ e, Coordinate.moveForward s c m ≠ .err e) ∧
    (∀ e, Coordinate.moveBackward s c m ≠ .err e) := by
  have hids : Coordinate.moveForward s c 0 = .ok (some c) ∧
      Coordinate.moveBackward s c 0 = .ok (some c) := ⟨rfl, rfl⟩
  refine ⟨hids, Coordinate.moveForward_eq_pos s c m,
    Coordinate.moveForward_eq_neg s c m, Coordinate.moveBackward_eq_pos s c m,
    Coordinate.moveBackward_eq_neg s c m, ?_, ?_, ?_⟩
  · by_cases hm : m = 0
    · subst hm
      rw [hids.1]
      simp
    · cases hstr : c.strand
      · rw [Coordinate.moveForward_eq_pos s c m hm hstr]
        simp
      · rw [Coordinate.moveForward_eq_neg s c m hm hstr]
        simp
  · intro e
    by_cases hm : m = 0
    · subst hm
      rw [hids.1]
      simp
    · cases hstr : c.strand
      · rw [Coordinate.moveForward_eq_pos s c m hm hstr]
        simp
      · rw [Coordinate.moveForward_eq_neg s c m hm hstr]
        simp
  · intro e
    by_cases hm : m = 0
    · subst hm
      rw [hids.2]
      simp
    · cases hstr : c.strand
      · rw [Coordinate.moveBackward_eq_pos s c m hm hstr]
        simp
      · rw [Coordinate.moveBackward_eq_neg s c m hm hstr]
        simp

/-- C5 witness: the movement specification evaluated on the zero-based
system at a concrete coordinate: moving `seq0:+:0` forward by one yields
`seq0:+:1`, and moving it backward by one yields `Ok(None)` (landing on the
lower bound, which may not sit on the positive strand). -/
theorem move_forward_backward_spec_witness :
    Coordinate.moveForward Sys.zero ⟨"seq0", .positive, .usize 0⟩ 1 =
      .ok (some ⟨"seq0", .positive, .usize 1⟩) ∧
    Coordinate.moveBackward Sys.zero ⟨"seq0", .positive, .usize 0⟩ 1 = .ok none :=
  ⟨((move_forward_backward_spec Sys.zero ⟨"seq0", .positive, .usize 0⟩ 1).2.1
      (by decide) rfl).trans (by rfl),
    ((move_forward_backward_spec Sys.zero ⟨"seq0", .positive, .usize 0⟩ 1).2.2.2.1
      (by decide) rfl).trans (by rfl)⟩

/-- C9: a lower bound position exists only on the negative strand:
constructing a coordinate with a lower bound position on a non-negative
strand fails, swapping the strand of a negative-strand lower-bound
coordinate fails with the same error, and every successful construction,
move, or swap preserves the invariant that a lower bound position is paired
with the negative strand. -/
theorem lower_bound_only_on_negative_strand :
    (∀ (contig : Omics.Contig) (strand : Omics.Strand),
      strand ≠ .negative →
        Coordinate.tryNew contig strand .lowerBound =
          .error .lowerBoundOnNonNegativeStrand) ∧
    (∀ contig : Omics.Contig,
      Coordinate.swapStrand ⟨contig, .negative, .lowerBound⟩ =
        .error .lowerBoundOnNonNegativeStrand) ∧
    (∀ (contig : Omics.Contig) (strand : Omics.Strand) (p : Value)
        (c' : Coordinate),
      Coordinate.tryNew contig strand p = .ok c' → c'.Valid) ∧
    (∀ (s : Sys) (c : Coordinate) (m : Nat) (c' : Coordinate), c.Valid →
      Coordinate.moveForward s c m = .ok (some c') → c'.Valid) ∧
    (∀ (s : Sys) (c : Coordinate) (m : Nat) (c' : Coordinate), c.Valid →
      Coordinate.moveBackward s c m = .ok (some c') → c'.Valid) ∧
    (∀ (c c' : Coordinate), Coordinate.swapStrand c = .ok c' → c'.Valid) := by
  refine ⟨?_, ?_, Coordinate.tryNew_ok_valid, ?_, ?_, ?_⟩
  · intro contig strand hstrand
    unfold Coordinate.tryNew
    rw [if_pos ⟨rfl, hstrand⟩]
  · intro contig
    unfold Coordinate.swapStrand Coordinate.tryNew
    rw [if_pos ⟨rfl, by simp [Omics.Strand.complement]⟩]
  · intro s c m c' hc h
    by_cases hm : m = 0
    · have hid : Coordinate.moveForward s c 0 = .ok (some c) := rfl
      subst hm
      rw [hid] at h
      cases h
      exact hc
    · cases hstr : c.strand
      · rw [Coordinate.moveForward_eq_pos s c m hm hstr] at h
        cases hadd : s.checkedAdd c.position m with
        | none => rw [hadd] at h; exact absurd h (by simp)
        | some p =>
          rw [hadd] at h
          simp only [Option.map_some'] at h
          cases h
          intro hp
          simp only [] at hp
          exact absurd hadd (hp ▸ Sys.checkedAdd_ne_lowerBound s _ m hm)
      · rw [Coordinate.moveForward_eq_neg s c m hm hstr] at h
        cases hsub : s.checkedSub c.position m with
        | none => rw [hsub] at h; exact absurd h (by simp)
        | some p =>
          rw [hsub] at h
          simp only [Option.map_some'] at h
          cases h
          intro _
          exact hstr
  · intro s c m c' hc h
    by_cases hm : m = 0
    · have hid : Coordinate.moveBackward s c 0 = .ok (some c) := rfl
      subst hm
      rw [hid] at h
      cases h
      exact hc
    · cases hstr : c.strand
      · rw [Coordinate.moveBackward_eq_pos s c m hm hstr] at h
        cases hsub : s.checkedSub c.position m with
        | none => rw [hsub] at h; exact absurd h (by simp)
        | some p =>
          rw [hsub] at h
          simp only [Option.some_bind] at h
          cases p with
          | lowerBound => exact absurd h (by simp)
          | usize n =>
            simp only [] at h
            cases h
            intro hp
            exact absurd hp (by simp)
      · rw [Coordinate.moveBackward_eq_neg s c m hm hstr] at h
        cases hadd : s.checkedAdd c.position m with
        | none => rw [hadd] at h; exact absurd h (by simp)
        | some p =>
          rw [hadd] at h
          simp only [Option.map_some'] at h
          cases h
          intro _
          exact hstr
  · intro c c' h
    exact Coordinate.tryNew_ok_valid _ _ _ _ h

/-- C9 witness: the invariant specification evaluated at a concrete
coordinate: a lower bound on the positive strand of `seq0` is rejected. -/
theorem lower_bound_only_on_negative_strand_witness :
    Coordinate.tryNew "seq0" .positive .lowerBound =
      .error .lowerBoundOnNonNegativeStrand :=
  lower_bound_only_on_negative_strand.1 "seq0" .positive (by decide)

theorem Coordinate.swapStrand_usize (contig : Omics.Contig)
    (strand : Omics.Strand) (n : Nat) :
    Coordinate.swapStrand ⟨contig, strand, .usize n⟩ =
      .ok ⟨contig, strand.complement, .usize n⟩ :=
  Coordinate.tryNew_usize contig strand.complement n

theorem Coordinate.moveForward_zero_neg_usize (contig : Omics.Contig) (m : Nat) :
    Coordinate.moveForward Sys.zero ⟨contig, .negative, .usize m⟩ 1 =
      .ok (some ⟨contig, .negative,
        if m = 0 then Value.lowerBound else Value.usize (m - 1)⟩) := by
  rw [Coordinate.moveForward_eq_neg Sys.zero ⟨contig, .negative, .usize m⟩ 1
    (by decide) rfl]
  have hsub : Sys.zero.checkedSub (Value.usize m) 1 =
      some (if m = 0 then Value.lowerBound else Value.usize (m - 1)) := by
    show Value.checkedSubZero (.usize m) 1 = _
    unfold Value.checkedSubZero
    simp only []
    by_cases hm : m = Omics.intMax
    · subst hm
      rw [if_pos rfl]
      unfold Omics.checkedSubNat
      rw [if_pos (by decide), if_neg (by decide)]
      rfl
    · rw [if_neg hm]
      unfold Omics.checkedSubNat
      rw [if_pos (by omega)]
      cases m with
      | zero => rfl
      | succ k =>
        rw [if_neg (by omega)]
        rfl
  rw [hsub]
  rfl

theorem Coordinate.moveForward_zero_pos_usize (contig : Omics.Contig) (a : Nat) :
    Coordinate.moveForward Sys.zero ⟨contig, .positive, .usize a⟩ 1 =
      .ok (if a + 1 ≤ Omics.intMax then some ⟨contig, .positive, .usize (a + 1)⟩
        else none) := by
  rw [Coordinate.moveForward_eq_pos Sys.zero ⟨contig, .positive, .usize a⟩ 1
    (by decide) rfl]
  have hadd : Sys.zero.checkedAdd (Value.usize a) 1 =
      if a + 1 ≤ Omics.intMax then some (Value.usize (a + 1)) else none := by
    show Value.checkedAddZero (.usize a) 1 = _
    unfold Value.checkedAddZero Omics.checkedAddNat
    simp only []
    by_cases h : a + 1 ≤ Omics.intMax
    · rw [if_pos h, if_pos h]
      rfl
    · rw [if_neg h, if_neg h]
      rfl
  rw [hadd]
  by_cases h : a + 1 ≤ Omics.intMax
  · rw [if_pos h, if_pos h]
    rfl
  · rw [if_neg h, if_neg h]
    rfl


/-- C8: for every valid 0-based (half-open) interval, `complement` produces
the new end by strand-swapping the old start and moving it forward by one,
and the new start by the symmetric operation on the old end, except that an
old end at the lower bound becomes the positive-strand position zero
directly; an overflowing endpoint move yields `Ok(None)` rather than an
error, and `complement` never errors or panics on valid input. -/
theorem zero_complement_spec (i : Interval)
    (h : Interval.tryNewZero i.start i.stop = .ok i)
    (hs : i.start.Valid) (he : i.stop.Valid) :
    (∃ r, Interval.complementZero i = some (.ok r)) ∧
    (∀ J, Interval.complementZero i = some (.ok (some J)) →
      Coordinate.moveForward Sys.zero
          ⟨i.start.contig, i.start.strand.complement, i.start.position⟩ 1 =
        .ok (some J.stop) ∧
      (i.stop.position = .lowerBound →
        J.start = ⟨i.stop.contig, .positive, .usize 0⟩) ∧
      (∀ n, i.stop.position = .usize n →
        Coordinate.moveForward Sys.zero
            ⟨i.stop.contig, i.stop.strand.complement, .usize n⟩ 1 =
          .ok (some J.start))) ∧
    ((Coordinate.moveForward Sys.zero
          ⟨i.start.contig, i.start.strand.complement, i.start.position⟩ 1 =
        .ok none ∨
      (∃ n, i.stop.position = .usize n ∧
        Coordinate.moveForward Sys.zero
            ⟨i.stop.contig, i.stop.strand.complement, .usize n⟩ 1 = .ok none)) →
      Interval.complementZero i = some (.ok none)) := by
  obtain ⟨⟨sc, ss, sp⟩, ⟨ec, es, ep⟩⟩ := i
  obtain ⟨hc, hstr, hord, hne, -⟩ := (Interval.tryNewZero_ok_iff _ _ _).mp h
  simp only [] at hc hstr hord hne hs he ⊢
  subst hc
  subst hstr
  have hpe : sp ≠ ep := fun hh => hne (by rw [hh])
  cases ss with
  | positive =>
    simp only [Omics.Strand.complement] at *
    cases sp with
    | lowerBound => exact absurd (hs rfl) (by simp)
    | usize a =>
      cases ep with
      | lowerBound => simp [Value.ltb] at hord
      | usize b =>
        have hab : a < b := by
          have h1 : ¬ b < a := by simpa [Value.ltb] using hord
          have h2 : a ≠ b := fun hh => hpe (by rw [hh])
          omega
        have hswE : Coordinate.swapStrand ⟨sc, .positive, .usize b⟩ =
            .ok ⟨sc, .negative, .usize b⟩ := Coordinate.swapStrand_usize sc .positive b
        have hswS : Coordinate.swapStrand ⟨sc, .positive, .usize a⟩ =
            .ok ⟨sc, .negative, .usize a⟩ := Coordinate.swapStrand_usize sc .positive a
        have hmvE := Coordinate.moveForward_zero_neg_usize sc b
        rw [if_neg (by omega : ¬ b = 0)] at hmvE
        have hmvS := Coordinate.moveForward_zero_neg_usize sc a
        set q : Value := if a = 0 then Value.lowerBound else Value.usize (a - 1)
          with hq
        have hok : Interval.tryNewZero ⟨sc, .negative, .usize (b - 1)⟩
              ⟨sc, .negative, q⟩ =
            .ok ⟨⟨sc, .negative, .usize (b - 1)⟩, ⟨sc, .negative, q⟩⟩ := by
          apply (Interval.tryNewZero_ok_iff _ _ _).mpr
          refine ⟨rfl, rfl, ?_, ?_, rfl⟩
          · show Value.ltb (.usize (b - 1)) q = false
            rw [hq]
            by_cases ha : a = 0
            · rw [if_pos ha]
              rfl
            · rw [if_neg ha]
              show decide (b - 1 < a - 1) = false
              simp only [decide_eq_false_iff_not]
              omega
          · intro hh
            rw [hq] at hh
            by_cases ha : a = 0
            · rw [if_pos ha] at hh
              exact absurd (congrArg Coordinate.position hh) (by simp)
            · rw [if_neg ha] at hh
              have := congrArg Coordinate.position hh
              simp only [Value.usize.injEq] at this
              omega
        have hres : Interval.complementZero
              ⟨⟨sc, .positive, .usize a⟩, ⟨sc, .positive, .usize b⟩⟩ =
            some (.ok (some ⟨⟨sc, .negative, .usize (b - 1)⟩,
              ⟨sc, .negative, q⟩⟩)) := by
          unfold Interval.complementZero
          simp only []
          rw [hswE]
          simp only []
          rw [hmvE]
          simp only []
          unfold Interval.complementZeroCont
          rw [hswS]
          simp only []
          rw [hmvS]
          simp only []
          rw [hok]
          rfl
        refine ⟨⟨_, hres⟩, ?_, ?_⟩
        · intro J hJ
          rw [hres] at hJ
          simp only [Option.some.injEq, Except.ok.injEq] at hJ
          subst hJ
          refine ⟨hmvS, ?_, ?_⟩
          · intro hh
            exact absurd hh (by simp)
          · intro n hn
            simp only [Value.usize.injEq] at hn
            subst hn
            exact hmvE
        · intro hov
          rcases hov with hov | ⟨n, hn, hov⟩
          · rw [hmvS] at hov
            exact absurd hov (by simp)
          · simp only [Value.usize.injEq] at hn
            subst hn
            rw [hmvE] at hov
            exact absurd hov (by simp)
  | negative =>
    simp only [Omics.Strand.complement] at *
    cases sp with
    | lowerBound =>
      cases ep with
      | lowerBound => exact absurd rfl hpe
      | usize b => simp [Value.ltb] at hord
    | usize a =>
      cases ep with
      | lowerBound =>
        have htn0 : Coordinate.tryNew sc Omics.Strand.positive (Value.usize 0) =
            .ok ⟨sc, .positive, .usize 0⟩ := Coordinate.tryNew_usize sc .positive 0
        have hswS : Coordinate.swapStrand ⟨sc, .negative, .usize a⟩ =
            .ok ⟨sc, .positive, .usize a⟩ := Coordinate.swapStrand_usize sc .negative a
        have hmvS := Coordinate.moveForward_zero_pos_usize sc a
        by_cases hovf : a + 1 ≤ Omics.intMax
        · rw [if_pos hovf] at hmvS
          have hok : Interval.tryNewZero ⟨sc, .positive, .usize 0⟩
                ⟨sc, .positive, .usize (a + 1)⟩ =
              .ok ⟨⟨sc, .positive, .usize 0⟩, ⟨sc, .positive, .usize (a + 1)⟩⟩ := by
            apply (Interval.tryNewZero_ok_iff _ _ _).mpr
            refine ⟨rfl, rfl, ?_, ?_, rfl⟩
            · show decide (a + 1 < 0) = false
              simp
            · intro hh
              have := congrArg Coordinate.position hh
              simp only [Value.usize.injEq] at this
              omega
          have hres : Interval.complementZero
                ⟨⟨sc, .negative, .usize a⟩, ⟨sc, .negative, .lowerBound⟩⟩ =
              some (.ok (some ⟨⟨sc, .positive, .usize 0⟩,
                ⟨sc, .positive, .usize (a + 1)⟩⟩)) := by
            unfold Interval.complementZero
            simp only []
            rw [htn0]
            unfold Interval.complementZeroCont
            rw [hswS]
            simp only []
            rw [hmvS]
            simp only []
            rw [hok]
            rfl
          refine ⟨⟨_, hres⟩, ?_, ?_⟩
          · intro J hJ
            rw [hres] at hJ
            simp only [Option.some.injEq, Except.ok.injEq] at hJ
            subst hJ
            refine ⟨hmvS, fun _ => rfl, ?_⟩
            · intro n hn
              exact absurd hn (by simp)
          · intro hov
            rcases hov with hov | ⟨n, hn, hov⟩
            · rw [hmvS] at hov
              exact absurd hov (by simp)
            · exact absurd hn (by simp)
        · rw [if_neg hovf] at hmvS
          have hres : Interval.complementZero
                ⟨⟨sc, .negative, .usize a⟩, ⟨sc, .negative, .lowerBound⟩⟩ =
              some (.ok none) := by
            unfold Interval.complementZero
            simp only []
            rw [htn0]
            unfold Interval.complementZeroCont
            rw [hswS]
            simp only []
            rw [hmvS]
          refine ⟨⟨_, hres⟩, ?_, fun _ => hres⟩
          · intro J hJ
            rw [hres] at hJ
            simp at hJ
      | usize b =>
        have hba : b < a := by
          have h1 : ¬ a < b := by simpa [Value.ltb] using hord
          have h2 : a ≠ b := fun hh => hpe (by rw [hh])
          omega
        have hswE : Coordinate.swapStrand ⟨sc, .negative, .usize b⟩ =
            .ok ⟨sc, .positive, .usize b⟩ := Coordinate.swapStrand_usize sc .negative b
        have hswS : Coordinate.swapStrand ⟨sc, .negative, .usize a⟩ =
            .ok ⟨sc, .positive, .usize a⟩ := Coordinate.swapStrand_usize sc .negative a
        have hmvE := Coordinate.moveForward_zero_pos_usize sc b
        have hmvS := Coordinate.moveForward_zero_pos_usize sc a
        by_cases hb : b + 1 ≤ Omics.intMax
        · rw [if_pos hb] at hmvE
          by_cases ha : a + 1 ≤ Omics.intMax
          · rw [if_pos ha] at hmvS
            have hok : Interval.tryNewZero ⟨sc, .positive, .usize (b + 1)⟩
                  ⟨sc, .positive, .usize (a + 1)⟩ =
                .ok ⟨⟨sc, .positive, .usize (b + 1)⟩,
                  ⟨sc, .positive, .usize (a + 1)⟩⟩ := by
              apply (Interval.tryNewZero_ok_iff _ _ _).mpr
              refine ⟨rfl, rfl, ?_, ?_, rfl⟩
              · show decide (a + 1 < b + 1) = false
                simp only [decide_eq_false_iff_not]
                omega
              · intro hh
                have := congrArg Coordinate.position hh
                simp only [Value.usize.injEq] at this
                omega
            have hres : Interval.complementZero
                  ⟨⟨sc, .negative, .usize a⟩, ⟨sc, .negative, .usize b⟩⟩ =
                some (.ok (some ⟨⟨sc, .positive, .usize (b + 1)⟩,
                  ⟨sc, .positive, .usize (a + 1)⟩⟩)) := by
              unfold Interval.complementZero
              simp only []
              rw [hswE]
              simp only []
              rw [hmvE]
              simp only []
              unfold Interval.complementZeroCont
              rw [hswS]
              simp only []
              rw [hmvS]
              simp only []
              rw [hok]
              rfl
            refine ⟨⟨_, hres⟩, ?_, ?_⟩
            · intro J hJ
              rw [hres] at hJ
              simp only [Option.some.injEq, Except.ok.injEq] at hJ
              subst hJ
              refine ⟨hmvS, ?_, ?_⟩
              · intro hh
                exact absurd hh (by simp)
              · intro n hn
                simp only [Value.usize.injEq] at hn
                subst hn
                exact hmvE
            · intro hov
              rcases hov with hov | ⟨n, hn, hov⟩
              · rw [hmvS] at hov
                exact absurd hov (by simp)
              · simp only [Value.usize.injEq] at hn
                subst hn
                rw [hmvE] at hov
                exact absurd hov (by simp)
          · rw [if_neg ha] at hmvS
            have hres : Interval.complementZero
                  ⟨⟨sc, .negative, .usize a⟩, ⟨sc, .negative, .usize b⟩⟩ =
                some (.ok none) := by
              unfold Interval.complementZero
              simp only []
              rw [hswE]
              simp only []
              rw [hmvE]
              simp only []
              unfold Interval.complementZeroCont
              rw [hswS]
              simp only []
              rw [hmvS]
            refine ⟨⟨_, hres⟩, ?_, fun _ => hres⟩
            · intro J hJ
              rw [hres] at hJ
              simp at hJ
        · rw [if_neg hb] at hmvE
          have hres : Interval.complementZero
                ⟨⟨sc, .negative, .usize a⟩, ⟨sc, .negative, .usize b⟩⟩ =
              some (.ok none) := by
            unfold Interval.complementZero
            simp only []
            rw [hswE]
            simp only []
            rw [hmvE]
          refine ⟨⟨_, hres⟩, ?_, fun _ => hres⟩
          · intro J hJ
            rw [hres] at hJ
            simp at hJ

/-- C8 witness: complementing the concrete valid interval `[1, 6)` on the
positive strand of `seq0` succeeds without error or panic. -/
theorem zero_complement_spec_witness :
    ∃ r, Interval.complementZero
        ⟨⟨"seq0", .positive, .usize 1⟩, ⟨"seq0", .positive, .usize 6⟩⟩ =
      some (.ok r) :=
  (zero_complement_spec
    ⟨⟨"seq0", .positive, .usize 1⟩, ⟨"seq0", .positive, .usize 6⟩⟩
    (by rfl) (fun hh => by simp at hh) (fun hh => by simp at hh)).1

end Omics.ZeroOne


namespace Omics.InterbaseBase

/-! ### Helper lemmas for the modern revision -/

theorem Interval.tryNew_ok_iff (s e : Coordinate) (i : Interval) :
    Interval.tryNew s e = .ok i ↔
      s.contig = e.contig ∧ s.strand = e.strand ∧
        (match s.strand with
          | .positive => s.position ≤ e.position
          | .negative => e.position ≤ s.position) ∧
        i = ⟨s, e⟩ := by
  obtain ⟨sc, ss, sp⟩ := s
  obtain ⟨ec, es, ep⟩ := e
  unfold Interval.tryNew
  by_cases hc : sc = ec
  · by_cases hstr : ss = es
    · subst hc
      subst hstr
      rw [if_neg (by simp), if_neg (by simp)]
      cases ss
      · simp only []
        by_cases hlt : sp > ep
        · rw [if_pos hlt]
          constructor
          · intro hh
            exact absurd hh (by simp)
          · rintro ⟨-, -, hord, -⟩
            exact absurd hord (by omega)
        · rw [if_neg hlt]
          constructor
          · intro hh
            cases hh
            exact ⟨by trivial, by trivial, by omega, by trivial⟩
          · rintro ⟨-, -, -, rfl⟩
            rfl
      · simp only []
        by_cases hlt : ep > sp
        · rw [if_pos hlt]
          constructor
          · intro hh
            exact absurd hh (by simp)
          · rintro ⟨-, -, hord, -⟩
            exact absurd hord (by omega)
        · rw [if_neg hlt]
          constructor
          · intro hh
            cases hh
            exact ⟨by trivial, by trivial, by omega, by trivial⟩
          · rintro ⟨-, -, -, rfl⟩
            rfl
    · rw [if_neg (by simpa using hc), if_pos (by simpa using hstr)]
      constructor
      · intro hh
        exact absurd hh (by simp)
      · rintro ⟨-, h2, -, -⟩
        exact absurd h2 hstr
  · rw [if_pos (by simpa using hc)]
    constructor
    · intro hh
      exact absurd hh (by simp)
    · rintro ⟨h1, -, -, -⟩
      exact absurd h1 hc

/-! ### Claim theorems for the modern revision -/

/-- C2 counterexample: parsing the single-position shorthand `"seq0:+:0"`
as an interval does not succeed: the parser requires exactly two
`-`-separated positions and fails with an invalid-format parse error,
refuting the claim that the shorthand expands to `[0, 1)`. -/
theorem interval_parse_single_position_rejected :
    Interval.fromStr "seq0:+:0" = .error (.parseFormat "seq0:+:0") := by
  rfl

/-- C2 (amended): parsing an interval accepts only the two-position shape
`<contig>:<strand>:<start>-<end>`; the single-position shorthand
`"<contig>:<strand>:<n>"` is rejected with an invalid-format parse error
(e.g. `"seq0:+:0"`), while `"seq0:+:0-1"` parses to the interval whose
start position is 0 and whose end position is 1. -/
theorem interval_parse_requires_two_positions :
    Interval.fromStr "seq0:+:0" = .error (.parseFormat "seq0:+:0") ∧
    Interval.fromStr "seq0:+:0-1" =
      .ok ⟨⟨"seq0", .positive, 0⟩, ⟨"seq0", .positive, 1⟩⟩ :=
  ⟨rfl, rfl⟩

/-- C6: the entity count of an interval is the unchecked distance between
its start and end positions in the interbase (half-open) system — with no
`+1` — and that distance plus one in the base (fully-closed) system; for a
valid interval the distance resolves to the strand-oriented difference of
the two positions, and the half-open interval from 10 to 20 counts 10
entities while the fully-closed one counts 11. -/
theorem count_entities_spec :
    (∀ i : Interval, i.countEntitiesInterbase =
      distanceUnchecked i.start.position i.stop.position) ∧
    (∀ i : Interval, i.countEntitiesBase =
      distanceUnchecked i.start.position i.stop.position + 1) ∧
    (∀ i : Interval, Interval.tryNew i.start i.stop = .ok i →
      (i.start.strand = .positive →
        i.countEntitiesInterbase = i.stop.position - i.start.position ∧
        i.countEntitiesBase = i.stop.position - i.start.position + 1) ∧
      (i.start.strand = .negative →
        i.countEntitiesInterbase = i.start.position - i.stop.position ∧
        i.countEntitiesBase = i.start.position - i.stop.position + 1)) ∧
    Interval.countEntitiesInterbase
      ⟨⟨"seq0", .positive, 10⟩, ⟨"seq0", .positive, 20⟩⟩ = 10 ∧
    Interval.countEntitiesBase
      ⟨⟨"seq0", .positive, 10⟩, ⟨"seq0", .positive, 20⟩⟩ = 11 := by
  refine ⟨fun i => rfl, fun i => rfl, ?_, rfl, rfl⟩
  intro i h
  obtain ⟨-, -, hord, -⟩ := (Interval.tryNew_ok_iff _ _ _).mp h
  constructor
  · intro hstr
    rw [hstr] at hord
    simp only [] at hord
    constructor
    · show distanceUnchecked i.start.position i.stop.position = _
      unfold distanceUnchecked
      rw [if_pos hord]
    · show distanceUnchecked i.start.position i.stop.position + 1 = _
      unfold distanceUnchecked
      rw [if_pos hord]
  · intro hstr
    rw [hstr] at hord
    simp only [] at hord
    constructor
    · show distanceUnchecked i.start.position i.stop.position = _
      unfold distanceUnchecked
      by_cases hle : i.start.position ≤ i.stop.position
      · rw [if_pos hle]
        omega
      · rw [if_neg hle]
    · show distanceUnchecked i.start.position i.stop.position + 1 = _
      unfold distanceUnchecked
      by_cases hle : i.start.position ≤ i.stop.position
      · rw [if_pos hle]
        omega
      · rw [if_neg hle]

/-- C6 witness: the count specification evaluated at the concrete valid
half-open interval from 10 to 20 on the positive strand of `seq0`. -/
theorem count_entities_spec_witness :
    Interval.countEntitiesInterbase
        ⟨⟨"seq0", .positive, 10⟩, ⟨"seq0", .positive, 20⟩⟩ = 20 - 10 ∧
    Interval.countEntitiesBase
        ⟨⟨"seq0", .positive, 10⟩, ⟨"seq0", .positive, 20⟩⟩ = 20 - 10 + 1 :=
  (count_entities_spec.2.2.1
    ⟨⟨"seq0", .positive, 10⟩, ⟨"seq0", .positive, 20⟩⟩ (by rfl)).1 rfl

/-- C7: clamping an interval by another with a different contig or strand
yields the dedicated clamp-mismatch errors (distinct from the
construction-time mismatch errors); when clamping succeeds, the result's
start is the `max` of the two starts on the positive strand (`min` on the
negative strand), the end is the symmetric `min`/`max` of the two ends, and
the result never extends past the receiver's own original bounds; clamping
a valid interval by itself returns it unchanged. -/
theorem clamp_spec (A B : Interval) :
    (A.start.contig ≠ B.start.contig →
      A.clamp B = some (.error
        (.clampMismatchedContigs A.start.contig B.start.contig))) ∧
    (A.start.contig = B.start.contig → A.start.strand ≠ B.start.strand →
      A.clamp B = some (.error
        (.clampMismatchedStrand A.start.strand B.start.strand))) ∧
    (∀ J, A.clamp B = some (.ok J) →
      (A.start.strand = .positive →
        J.start.position = max A.start.position B.start.position ∧
        J.stop.position = min A.stop.position B.stop.position ∧
        A.start.position ≤ J.start.position ∧
        J.stop.position ≤ A.stop.position) ∧
      (A.start.strand = .negative →
        J.start.position = min A.start.position B.start.position ∧
        J.stop.position = max A.stop.position B.stop.position ∧
        J.start.position ≤ A.start.position ∧
        A.stop.position ≤ J.stop.position)) ∧
    (Interval.tryNew A.start A.stop = .ok A → A.clamp A = some (.ok A)) := by
  obtain ⟨⟨ac, as1, ap⟩, ⟨ac2, as2, ap2⟩⟩ := A
  obtain ⟨⟨bc, bs1, bp⟩, ⟨bc2, bs2, bp2⟩⟩ := B
  simp only []
  refine ⟨?_, ?_, ?_, ?_⟩
  · intro h
    unfold Interval.clamp
    rw [if_pos h]
  · intro hc hstr
    unfold Interval.clamp
    rw [if_neg (by simpa using hc), if_pos hstr]
  · intro J hJ
    unfold Interval.clamp at hJ
    by_cases hc : ac = bc
    · rw [if_neg (by simpa using hc)] at hJ
      by_cases hstr : as1 = bs1
      · rw [if_neg (by simpa using hstr)] at hJ
        cases as1 with
        | positive =>
          simp only [] at hJ
          cases htn : Interval.tryNew ⟨ac, .positive, max ap bp⟩
              ⟨ac2, as2, min ap2 bp2⟩ with
          | error e =>
            rw [htn] at hJ
            exact absurd hJ (by simp)
          | ok K =>
            rw [htn] at hJ
            simp only [Option.some.injEq, Except.ok.injEq] at hJ
            obtain ⟨-, -, -, hK⟩ := (Interval.tryNew_ok_iff _ _ _).mp htn
            subst hJ
            subst hK
            constructor
            · intro _
              exact ⟨rfl, rfl, le_max_left _ _, min_le_left _ _⟩
            · intro hcontra
              exact absurd hcontra (by simp)
        | negative =>
          simp only [] at hJ
          cases htn : Interval.tryNew ⟨ac, .negative, min ap bp⟩
              ⟨ac2, as2, max ap2 bp2⟩ with
          | error e =>
            rw [htn] at hJ
            exact absurd hJ (by simp)
          | ok K =>
            rw [htn] at hJ
            simp only [Option.some.injEq, Except.ok.injEq] at hJ
            obtain ⟨-, -, -, hK⟩ := (Interval.tryNew_ok_iff _ _ _).mp htn
            subst hJ
            subst hK
            constructor
            · intro hcontra
              exact absurd hcontra (by simp)
            · intro _
              exact ⟨rfl, rfl, min_le_left _ _, le_max_left _ _⟩
      · rw [if_pos hstr] at hJ
        exact absurd hJ (by simp)
    · rw [if_pos (by simpa using hc)] at hJ
      exact absurd hJ (by simp)
  · intro hA
    unfold Interval.clamp
    rw [if_neg (by simp), if_neg (by simp)]
    cases as1 <;>
      · simp only [max_self, min_self]
        rw [hA]

/-- C7 witness: the clamp specification evaluated at a concrete valid
interval clamped by itself. -/
theorem clamp_spec_witness :
    Interval.clamp ⟨⟨"seq0", .positive, 1000⟩, ⟨"seq0", .positive, 2000⟩⟩
        ⟨⟨"seq0", .positive, 1000⟩, ⟨"seq0", .positive, 2000⟩⟩ =
      some (.ok ⟨⟨"seq0", .positive, 1000⟩, ⟨"seq0", .positive, 2000⟩⟩) :=
  (clamp_spec ⟨⟨"seq0", .positive, 1000⟩, ⟨"seq0", .positive, 2000⟩⟩
    ⟨⟨"seq0", .positive, 1000⟩, ⟨"seq0", .positive, 2000⟩⟩).2.2.2 (by rfl)

/-- C10: the claim that `clamp` is total over same-contig, same-strand
inputs fails on the code: clamping the valid positive-strand interval
`[10, 20]` by the valid disjoint interval `[30, 40]` on the same contig and
strand computes the new start 30 and the new end 20, so the final internal
`Interval::try_new(start, end)` returns a negatively-sized error and its
`.unwrap()` panics (modelled as `none`), contradicting the code's own
safety comment. -/
theorem clamp_disjoint_panics :
    Interval.tryNew ⟨"seq0", .positive, 10⟩ ⟨"seq0", .positive, 20⟩ =
      .ok ⟨⟨"seq0", .positive, 10⟩, ⟨"seq0", .positive, 20⟩⟩ ∧
    Interval.tryNew ⟨"seq0", .positive, 30⟩ ⟨"seq0", .positive, 40⟩ =
      .ok ⟨⟨"seq0", .positive, 30⟩, ⟨"seq0", .positive, 40⟩⟩ ∧
    Interval.tryNew ⟨"seq0", .positive, 30⟩ ⟨"seq0", .positive, 20⟩ =
      .error (.negativelySized 30 20 .positive) ∧
    Interval.clamp ⟨⟨"seq0", .positive, 10⟩, ⟨"seq0", .positive, 20⟩⟩
        ⟨⟨"seq0", .positive, 30⟩, ⟨"seq0", .positive, 40⟩⟩ = none :=
  ⟨rfl, rfl, rfl, rfl⟩

end Omics.InterbaseBase
